import Mathlib

/-!
Verification of the Revistapdf.com viewer against its specification.

The repository is a React/TypeScript digital-magazine viewer.  This file
gives a shallow embedding of the numeric, string and control-flow logic
that the specification's claims are about, translated from the TypeScript
sources:

* `src/components/PDFPage.tsx` — fit-to-container scaling, layer geometry,
  render-task cancellation, per-layer error handling, link-click handling
  and internal-destination resolution;
* `src/services/gemini.ts` — `analyzePdf` and its fallbacks;
* `src/components/UploadModal.tsx` — `createSlug` and `handleSave`;
* `src/store/context.tsx` — `updateMagazine` field-merge semantics;
* `src/components/FlipbookViewer.tsx` — `goToPrev` / `goToNext`.

JavaScript numbers are modelled as `ℚ` (for the layout arithmetic, which
the spec states over exact arithmetic) and `ℤ` (for page indices);
JavaScript strings as Lean `String` / `List Char`.
-/

/-! ### Fit-to-container scaling (src/components/PDFPage.tsx)

`PDFPage` computes
`widthScale = containerWidth / baseViewport.width`,
`heightScale = containerHeight / baseViewport.height`,
`fitScale = Math.min(widthScale, heightScale)`.
`page.getViewport (scale)` returns a viewport of size
`(pageW * scale, pageH * scale)` (pdf.js contract), so the CSS/layout size
of the page at zoom 1 is `(pageW * fitScale, pageH * fitScale)`. -/

/-- Embeds `widthScale = containerWidth / baseViewport.width` (PDFPage). -/
def widthScale (pageW containerW : ℚ) : ℚ := containerW / pageW

/-- Embeds `heightScale = containerHeight / baseViewport.height` (PDFPage). -/
def heightScale (pageH containerH : ℚ) : ℚ := containerH / pageH

/-- Embeds `fitScale = Math.min(widthScale, heightScale)` (PDFPage). -/
def fitScale (pageW pageH containerW containerH : ℚ) : ℚ :=
  min (widthScale pageW containerW) (heightScale pageH containerH)

/-- On-screen (CSS) width of the rendered page: `cssViewport.width`,
i.e. `pageW * fitScale` at zoom 1. -/
def layoutWidth (pageW pageH containerW containerH : ℚ) : ℚ :=
  pageW * fitScale pageW pageH containerW containerH

/-- On-screen (CSS) height of the rendered page: `cssViewport.height`. -/
def layoutHeight (pageW pageH containerW containerH : ℚ) : ℚ :=
  pageH * fitScale pageW pageH containerW containerH

/-- Embeds `offsetX = (width - cssViewport.width) / 2` (PDFPage, the
text/annotation layer positioning). -/
def offsetX (pageW pageH containerW containerH : ℚ) : ℚ :=
  (containerW - layoutWidth pageW pageH containerW containerH) / 2

/-- Embeds `offsetY = (height - cssViewport.height) / 2` (PDFPage). -/
def offsetY (pageW pageH containerW containerH : ℚ) : ℚ :=
  (containerH - layoutHeight pageW pageH containerW containerH) / 2

/-- An on-screen axis-aligned box, in container coordinates. -/
structure Rect where
  x : ℚ
  y : ℚ
  w : ℚ
  h : ℚ
deriving DecidableEq, Repr

/-- Position a sole in-flow child of size `(w, h)` inside a flex container
`(cw, ch)` with `items-center justify-center` (CSS flexbox centering):
top-left corner `((cw - w) / 2, (ch - h) / 2)`. -/
def flexCenterPos (cw ch w h : ℚ) : ℚ × ℚ := ((cw - w) / 2, (ch - h) / 2)

/-- On-screen box of the raster canvas: its CSS size is set to
`cssViewport.width/height` (`canvas.style.width/height`), and it is the
only in-flow child of the centering flex container in `PDFPage`. -/
def canvasRect (pageW pageH cw ch : ℚ) : Rect :=
  ⟨(flexCenterPos cw ch (layoutWidth pageW pageH cw ch) (layoutHeight pageW pageH cw ch)).1,
   (flexCenterPos cw ch (layoutWidth pageW pageH cw ch) (layoutHeight pageW pageH cw ch)).2,
   layoutWidth pageW pageH cw ch,
   layoutHeight pageW pageH cw ch⟩

/-- On-screen box of the text-selection overlay: `PDFPage` sets
`textDiv.style.width/height` to the CSS viewport size and
`textDiv.style.left/top` to `offsetX/offsetY` (absolutely positioned). -/
def textLayerRect (pageW pageH cw ch : ℚ) : Rect :=
  ⟨offsetX pageW pageH cw ch, offsetY pageW pageH cw ch,
   layoutWidth pageW pageH cw ch, layoutHeight pageW pageH cw ch⟩

/-- On-screen box of the link/annotation overlay: `PDFPage` sets
`annotationDiv.style.width/height/left/top` exactly like the text layer. -/
def annotLayerRect (pageW pageH cw ch : ℚ) : Rect :=
  ⟨offsetX pageW pageH cw ch, offsetY pageW pageH cw ch,
   layoutWidth pageW pageH cw ch, layoutHeight pageW pageH cw ch⟩

/-! ### Page navigation (src/components/FlipbookViewer.tsx)

`goToPrev` / `goToNext` update `currentPage` given the current mode
(`isMobile`), the total page count and the current page.  JavaScript `%`
on integers is truncated remainder, i.e. `Int.tmod`. -/

/-- JavaScript `%` on integers (truncated remainder). -/
def jsMod (a b : ℤ) : ℤ := Int.tmod a b

/-- Embeds `goToPrev` of `FlipbookViewer` (lines 112-127). -/
def goToPrev (isMobile : Bool) (totalPages p : ℤ) : ℤ :=
  if isMobile then max 1 (p - 1)
  else if p = 1 then 1
  else if p = totalPages ∧ totalPages > 1 then
    (if jsMod p 2 ≠ 0 then max 1 (p - 1) else max 1 (p - 2))
  else if p ≤ 3 then 1
  else max 1 (if jsMod (p - 2) 2 = 0 then p - 2 else p - 2 - 1)

/-- Embeds `goToNext` of `FlipbookViewer` (lines 129-143). -/
def goToNext (isMobile : Bool) (totalPages p : ℤ) : ℤ :=
  if isMobile then min totalPages (p + 1)
  else if p = 1 then 2
  else
    (if (if jsMod p 2 = 0 then p + 2 else p + 1) ≥ totalPages then totalPages
     else (if jsMod p 2 = 0 then p + 2 else p + 1))

/-! ### Slug generation (src/components/UploadModal.tsx, `createSlug`)

`toLowerCase`, then NFD normalisation with removal of combining marks
(U+0300..U+036F), then three global regex replacements:
runs of `[^a-z0-9]` become `-`; leading and trailing `-`-runs are
deleted; runs of `-` collapse to one `-`.

The Unicode part (`toLowerCase` followed by NFD decomposition with
combining marks removed) is a per-character map `Char → List Char`; it is
taken as a parameter `norm` here, since full Unicode case folding and
canonical decomposition are outside the embedding.  Real JavaScript
`norm` is the identity on lowercase ASCII letters, digits and `-`, which
is the only property of it the theorems use.  The four `replace` steps
are embedded exactly: a maximal run of characters outside `[a-z0-9]`
becomes a single `-`; leading and trailing `-`-runs are deleted; runs of
`-` collapse to a single `-`. -/

/-- Membership in the character class `[a-z0-9]` of the slug regexes. -/
def isAlnum (c : Char) : Bool := ('a' ≤ c && c ≤ 'z') || ('0' ≤ c && c ≤ '9')

/-- The character `-`. -/
def isHyphen (c : Char) : Bool := c == '-'

/-- Apply the per-character normalisation (lowercase + NFD + strip
combining marks) to every character and concatenate. -/
def normChars (norm : Char → List Char) (s : List Char) : List Char :=
  (s.map norm).flatten

/-- Worker for the `[^a-z0-9]`-run replacement: `inRun` records whether the
previous character was part of a non-alphanumeric run already replaced. -/
def squashAux (inRun : Bool) : List Char → List Char
  | [] => []
  | c :: cs =>
    if isAlnum c then c :: squashAux false cs
    else if inRun then squashAux true cs
    else '-' :: squashAux true cs

/-- Regex replacement step 1: each maximal run of characters outside
`[a-z0-9]` becomes one hyphen. -/
def squashNonAlnum (s : List Char) : List Char := squashAux false s

/-- Remove a trailing run of characters satisfying `p`. -/
def dropTrailing (p : Char → Bool) (l : List Char) : List Char :=
  (l.reverse.dropWhile p).reverse

/-- Regex replacement step 2: delete the leading and the trailing run of
hyphens. -/
def trimHyphens (l : List Char) : List Char :=
  dropTrailing isHyphen (l.dropWhile isHyphen)

/-- Worker for the hyphen-run collapse: `prevHyphen` records whether the
previous character was a hyphen of a run already emitted. -/
def collapseAux (prevHyphen : Bool) : List Char → List Char
  | [] => []
  | c :: cs =>
    if isHyphen c then
      (if prevHyphen then collapseAux true cs else '-' :: collapseAux true cs)
    else c :: collapseAux false cs

/-- Regex replacement step 3: collapse hyphen runs to a single hyphen. -/
def collapseHyphens (l : List Char) : List Char := collapseAux false l

/-- Embeds `createSlug` of `UploadModal.tsx`, parameterised by the
per-character Unicode normalisation `norm`. -/
def createSlug (norm : Char → List Char) (s : List Char) : List Char :=
  collapseHyphens (trimHyphens (squashNonAlnum (normChars norm s)))

/-- A concrete normalisation instance used to exercise `createSlug`: the
identity map (correct for input that is already lowercase unaccented
ASCII, as JavaScript `toLowerCase` / NFD are the identity there). -/
def identNorm (c : Char) : List Char := [c]

/-! ### AI metadata analysis (src/services/gemini.ts, `analyzePdf`) -/

/-- Embeds `AIAnalysisResult` of `src/types.ts` (the optional `isGenerated` flag
is not involved in the analysed claims and is omitted). -/
structure AIAnalysisResult where
  title : String
  description : String
  category : String
deriving DecidableEq, Repr

/-- Worker for JavaScript `String.prototype.replace` with a plain-string
pattern: replace the first occurrence of `pat` by the empty string. -/
def replaceFirstAux (pat : List Char) : List Char → List Char
  | [] => []
  | c :: cs =>
    if pat.isPrefixOf (c :: cs) then (c :: cs).drop pat.length
    else c :: replaceFirstAux pat cs

/-- JavaScript `s.replace(pat, '')` for a plain-string `pat`: removes the
first occurrence of `pat` from `s`. -/
def jsReplaceFirst (s pat : String) : String :=
  String.mk (replaceFirstAux pat.data s.data)

/-- JavaScript falsiness of `process.env.API_KEY`: absent or empty. -/
def jsFalsyStr : Option String → Bool
  | none => true
  | some s => s == ""

/-- The fallback returned by `analyzePdf` when the API key is missing
(gemini.ts lines 22-29). -/
def mockFallback (fileName : String) : AIAnalysisResult :=
  ⟨jsReplaceFirst fileName ".pdf",
   "Descripción generada automáticamente no disponible (falta API Key).",
   "General"⟩

/-- The fallback returned by the `catch` of `analyzePdf` when the AI call
or response parsing fails (gemini.ts lines 68-76). -/
def errorFallback (fileName : String) : AIAnalysisResult :=
  ⟨jsReplaceFirst fileName ".pdf",
   "No se pudo generar una descripción automática.",
   "Uncategorized"⟩

/-- Embeds `analyzePdf` of `src/services/gemini.ts`.  The network call, the
empty-response check and `JSON.parse` are abstracted into one
`aiCall : Except String AIAnalysisResult` argument (any of those failures
lands in the same `catch`). -/
def analyzePdf (apiKey : Option String) (fileName : String)
    (aiCall : Except String AIAnalysisResult) : AIAnalysisResult :=
  if jsFalsyStr apiKey then mockFallback fileName
  else
    match aiCall with
    | Except.ok r => r
    | Except.error _ => errorFallback fileName

/-! ### Editing a magazine (UploadModal.tsx `handleSave`, context.tsx
`updateMagazine`)

`handleSave` in edit mode builds a partial update
`{title, description, category, slug}` and adds
`pdfUrl/coverImage/pageCount/originalFilename` only when a new file was
selected; `updateMagazine` merges the partial update into the stored
record field by field (Firestore `updateDoc` semantics — absent fields
are untouched; it may additionally rewrite a `blob:` URL value to a
remote URL after uploading, which does not change which fields are
written).  Optional TypeScript fields are modelled as plain `String`. -/

/-- The `Magazine` record of `src/types.ts`. -/
structure Magazine where
  id : String
  userId : String
  title : String
  description : String
  category : String
  pdfUrl : String
  coverImage : String
  createdAt : ℕ
  pageCount : ℕ
  slug : String
  originalFilename : String
deriving DecidableEq, Repr

/-- A `Partial<Magazine>` as built by `handleSave` (fields absent from
the update are `none`; `id/userId/createdAt` are never updated). -/
structure MagazineUpdates where
  title : Option String
  description : Option String
  category : Option String
  slug : Option String
  pdfUrl : Option String
  coverImage : Option String
  pageCount : Option ℕ
  originalFilename : Option String
deriving DecidableEq, Repr

/-- The data derived from a newly selected file in `handleSave`:
`URL.createObjectURL(file)`, `pdf.numPages` and `file.name`. -/
structure NewFileData where
  objectUrl : String
  numPages : ℕ
  name : String
deriving DecidableEq, Repr

/-- The partial update built by `handleSave` in edit mode
(UploadModal.tsx lines 109-127): always `title`, `description`,
`category` and `slug := createSlug title`; plus the file-derived fields
exactly when a new file was supplied. -/
def editUpdates (norm : Char → List Char) (title description category : String)
    (newFile : Option NewFileData) (previewUrl : String) : MagazineUpdates :=
  let base : MagazineUpdates :=
    ⟨some title, some description, some category,
     some (String.mk (createSlug norm title.data)), none, none, none, none⟩
  match newFile with
  | none => base
  | some f =>
    { base with
      pdfUrl := some f.objectUrl
      coverImage := some previewUrl
      pageCount := some f.numPages
      originalFilename := some f.name }

/-- Field-wise merge of a partial update into a stored record, as
performed by `updateMagazine` (context.tsx: `updateDoc(magRef, updates)`). -/
def updateMagazine (m : Magazine) (u : MagazineUpdates) : Magazine :=
  ⟨m.id, m.userId,
   u.title.getD m.title,
   u.description.getD m.description,
   u.category.getD m.category,
   u.pdfUrl.getD m.pdfUrl,
   u.coverImage.getD m.coverImage,
   m.createdAt,
   u.pageCount.getD m.pageCount,
   u.slug.getD m.slug,
   u.originalFilename.getD m.originalFilename⟩

/-! ### Per-layer error handling in a render attempt

Two variants of the page component are in the sources.

The `render` closure of `src/components/PDFPage.tsx` has the
control-flow skeleton

* outer `try`: raster the canvas (`page.render`, may throw) and commit
  the `rendered` state;
* inner `try`/`catch` around fetching and rendering the text layer
  (lines 93-110): a failure is logged and execution continues;
* inner `try`/`catch` around fetching and rendering the annotation layer
  (lines 123-215): a failure is logged and execution continues;
* outer `catch` (lines 218-223): a raster failure aborts the attempt, so
  neither overlay is attempted.

The variant in `src/unnamed/part_000` (text layer at lines 73-87,
annotation layer at lines 89-178) has no inner `try`/`catch` at all:
`await page.getTextContent()` and `await pdfjs.renderTextLayer(...)`
sit directly inside the outer `try`, so a text-layer failure jumps to
the outer `catch` and the annotation block is never executed; an
annotation-layer failure likewise reaches the outer `catch`, but only
after the text layer has already rendered.

Each layer body is abstracted into an `Except ε Unit` outcome. -/

/-- Observable result of one render attempt of `PDFPage.render`. -/
structure RenderOutcome (ε : Type) where
  rendered : Bool
  textRendered : Bool
  annotRendered : Bool
  fatal : Option ε
deriving DecidableEq, Repr

/-- Run one overlay body under its own try/catch: a failure is logged and
swallowed, success renders the layer. -/
def layerOk {ε : Type} : Except ε Unit → Bool
  | Except.ok _ => true
  | Except.error _ => false

/-- The render attempt of `src/components/PDFPage.tsx` (per-layer
inner `try`/`catch`, control-flow skeleton above). -/
def renderAttempt {ε : Type} (raster text annot : Except ε Unit) :
    RenderOutcome ε :=
  match raster with
  | Except.error e => ⟨false, false, false, some e⟩
  | Except.ok _ => ⟨true, layerOk text, layerOk annot, none⟩

/-- The render attempt of the `src/unnamed/part_000` variant: no inner
`try`/`catch`, so the first failing stage jumps to the outer `catch`
and every later stage is skipped (the canvas raster is committed before
the text layer, hence `rendered = true` once the raster succeeded). -/
def renderAttemptNoTextGuard {ε : Type} (raster text annot : Except ε Unit) :
    RenderOutcome ε :=
  match raster with
  | Except.error e => ⟨false, false, false, some e⟩
  | Except.ok _ =>
    match text with
    | Except.error e => ⟨true, false, false, some e⟩
    | Except.ok _ =>
      match annot with
      | Except.error e => ⟨true, true, false, some e⟩
      | Except.ok _ => ⟨true, true, true, none⟩

/-! ### Annotation-layer click handling (PDFPage.tsx lines 176-210)

Every interactive element of the annotation layer gets a `click` listener
registered in the capture phase.  The listener stops propagation, resolves
the element to an anchor (`element.tagName === 'A' ? element :
element.querySelector('a')`), and if the anchor's `href` starts with
`http` or `mailto:` it calls `preventDefault` and
`window.open(href, '_blank', 'noopener,noreferrer')`.  Because every
listener calls `stopPropagation` during capture, only the outermost
listener-bearing element of the capture chain runs its handler. -/

/-- One `window.open(url, target, features)` call. -/
structure OpenCall where
  url : String
  target : String
  features : String
deriving DecidableEq, Repr

/-- The observable effects of one dispatched click. -/
structure ClickEffect where
  propagationStopped : Bool
  defaultPrevented : Bool
  opened : List OpenCall
deriving DecidableEq, Repr

/-- JavaScript `pre.startsWith(s)` (modelled on the character list). -/
def strStartsWith (s pre : String) : Bool := pre.data.isPrefixOf s.data

/-- The external-scheme test of the click listener:
`href.startsWith('http') || href.startsWith('mailto:')`. -/
def isExternalHref (h : String) : Bool :=
  strStartsWith h "http" || strStartsWith h "mailto:"

/-- The click listener attached to an interactive annotation element,
given the `href` of the anchor the element resolves to (`none` when no
anchor is found; the empty string is falsy, as in `if (link && link.href)`). -/
def handleLinkClick (href : Option String) : ClickEffect :=
  match href with
  | none => ⟨true, false, []⟩
  | some h =>
    if h = "" then ⟨true, false, []⟩
    else if isExternalHref h then
      ⟨true, true, [⟨h, "_blank", "noopener,noreferrer"⟩]⟩
    else ⟨true, false, []⟩

/-- Capture-phase dispatch of one click through the chain of
listener-bearing elements (outermost first, each identified by its
resolved anchor `href`).  The first listener stops propagation, so later
listeners never fire; with no listener on the path the click reaches the
flipbook's gesture recognizer un-stopped. -/
def dispatchClickCapture : List (Option String) → ClickEffect
  | [] => ⟨false, false, []⟩
  | href :: _ => handleLinkClick href

/-! ### Internal-destination resolution (PDFPage.tsx lines 136-151)

`linkService.goToDestination` receives a pdf.js destination: either a
named destination (a string — left unresolved by this code), an explicit
destination array whose first element is a page reference passed to
`pdfDoc.getPageIndex` (which resolves to a zero-based page index or
rejects), or anything else.  The whole body is wrapped in `try`/`catch`;
the `catch` only logs a warning.  The callback is invoked exactly when a
non-`-1` index was obtained. -/

/-- A pdf.js link destination as discriminated by `goToDestination`. -/
inductive Dest (ρ : Type) where
  | str (s : String)
  | arr (elems : List ρ)
  | other

/-- Observable result of one `goToDestination` call: the page index the
`onPageJump` callback was invoked with (if any), and whether the `catch`
logged a warning. -/
structure ResolveOutcome where
  jumped : Option ℤ
  warned : Bool
deriving DecidableEq, Repr

/-- The `try` body of `goToDestination`; `getPageIndex` models
`pdfDoc.getPageIndex` applied to `dest[0]` (`none` for an out-of-range
element access, on which pdf.js rejects).  Errors propagate to the
`catch`. -/
def goToDestinationBody {ρ : Type} (hasCallback : Bool)
    (getPageIndex : Option ρ → Except String ℤ) (dest : Dest ρ) :
    Except String ResolveOutcome :=
  if !hasCallback then Except.ok ⟨none, false⟩
  else
    match dest with
    | Dest.str _ => Except.ok ⟨none, false⟩
    | Dest.arr es =>
      match getPageIndex es.head? with
      | Except.ok i =>
        if i ≠ -1 then Except.ok ⟨some i, false⟩ else Except.ok ⟨none, false⟩
      | Except.error e => Except.error e
    | Dest.other => Except.ok ⟨none, false⟩

/-- Embeds `goToDestination` with its surrounding `try`/`catch`: an error never
escapes; it is logged (`console.warn`) and the callback is not invoked. -/
def goToDestination {ρ : Type} (hasCallback : Bool)
    (getPageIndex : Option ρ → Except String ℤ) (dest : Dest ρ) :
    ResolveOutcome :=
  match goToDestinationBody hasCallback getPageIndex dest with
  | Except.ok o => o
  | Except.error _ => ⟨none, true⟩

/-! ### Render-task cancellation discipline (PDFPage.tsx)

One page surface is driven by a React effect.  The effect (re-)runs when
its inputs change; React runs the previous effect's cleanup
synchronously before the new effect body.  The cleanup (lines 228-233)
sets the closure's `mounted` flag to `false` and cancels
`renderTaskRef.current`.  The async `render` closure awaits
`pdfDoc.getPage`, then — synchronously — checks `mounted`, cancels any
task in `renderTaskRef`, starts its own `page.render` task and stores it
in `renderTaskRef` (lines 38-70); it then awaits the task's promise.  A
task that settles uncancelled has drawn its raster into the canvas; a
cancelled task rejects with `RenderingCancelledException` and draws no
final raster, and the closure's state updates are guarded by `mounted`.

This is modelled as a small-step transition system.  Request `i` is the
`i`-th effect run; the shared state is `renderTaskRef` (`ref`), the
canvas content (`surface`, the id of the last task that committed its
raster), and per-request flags. -/

/-- Progress of one render request (one run of the effect's `render`). -/
inductive Stage where
  | idle
  | waitPage
  | waitTask
  | done
deriving DecidableEq, Repr

/-- Per-request state: the closure's `mounted` flag, its progress, and
its render task's `cancelled`/`settled` status. -/
structure OpSt where
  mounted : Bool
  stage : Stage
  cancelled : Bool
  settled : Bool
deriving DecidableEq, Repr

/-- Global state of one page surface. -/
structure SysSt where
  ops : ℕ → OpSt
  len : ℕ
  nextStart : ℕ
  ref : Option ℕ
  surface : Option ℕ

/-- A request that has not been issued yet. -/
def initOp : OpSt := ⟨false, Stage.idle, false, false⟩

/-- Initial state for `n` render requests. -/
def initSt (n : ℕ) : SysSt := ⟨fun _ => initOp, n, 0, none, none⟩

/-- Update request `i`'s record. -/
def setOp (s : SysSt) (i : ℕ) (f : OpSt → OpSt) : SysSt :=
  { s with ops := Function.update s.ops i (f (s.ops i)) }

/-- Models `renderTaskRef.current.cancel()`: mark the task stored in the ref (if
any) as cancelled.  (On an already settled task this has no observable
effect on the model's theorems.) -/
def cancelRef (s : SysSt) : SysSt :=
  match s.ref with
  | none => s
  | some j => setOp s j (fun o => { o with cancelled := true })

/-- Scheduler events: `start i` is React running cleanup of effect `i-1`
followed by effect `i`'s body (synchronous); `pageReady i` is request
`i`'s `getPage` await resuming, running the synchronous block up to
`await task.promise`; `settle i` is request `i`'s render task settling
(drawing its raster if it was not cancelled) and the closure resuming. -/
inductive Ev where
  | start (i : ℕ)
  | pageReady (i : ℕ)
  | settle (i : ℕ)
deriving DecidableEq, Repr

/-- One scheduler step; `none` when the event is not enabled.

Event `start i` is React running the previous effect's cleanup (set the old
closure's `mounted` to `false`, cancel `renderTaskRef.current`) and then
the new effect body (a live closure awaiting `getPage`).  `pageReady i`:
the closure resumes; if still mounted it cancels `renderTaskRef.current`,
starts its own task and stores it in the ref; otherwise it returns.
`settle i`: the task settles — committing its raster to the canvas
exactly when it was not cancelled — and the closure resumes. -/
def step (s : SysSt) : Ev → Option SysSt
  | Ev.start i =>
    if i = s.nextStart ∧ i < s.len then
      some { setOp
          (if i = 0 then s
           else cancelRef (setOp s (i - 1) (fun o => { o with mounted := false })))
          i (fun o => { o with mounted := true, stage := Stage.waitPage })
        with nextStart := i + 1 }
    else none
  | Ev.pageReady i =>
    if (s.ops i).stage = Stage.waitPage then
      if (s.ops i).mounted then
        some { setOp (cancelRef s) i (fun o => { o with stage := Stage.waitTask })
          with ref := some i }
      else some (setOp s i (fun o => { o with stage := Stage.done }))
    else none
  | Ev.settle i =>
    if (s.ops i).stage = Stage.waitTask then
      if (s.ops i).cancelled then
        some (setOp s i (fun o => { o with settled := true, stage := Stage.done }))
      else
        some { setOp s i (fun o => { o with settled := true, stage := Stage.done })
          with surface := some i }
    else none

/-- Run a list of events from a state. -/
def run (s : SysSt) : List Ev → Option SysSt
  | [] => some s
  | e :: es =>
    match step s e with
    | none => none
    | some s' => run s' es

/-- Request `i`'s raster task is in flight: started, not settled, not
cancelled.  (A `waitTask` request is never settled — settling moves it to
`done`.) -/
def inflight (s : SysSt) (i : ℕ) : Prop :=
  (s.ops i).stage = Stage.waitTask ∧ (s.ops i).cancelled = false

/-- All issued requests have finished (every effect ran and every task
settled or was skipped). -/
def complete (s : SysSt) : Prop :=
  ∀ i, i < s.len → (s.ops i).stage = Stage.done

instance completeDec (s : SysSt) : Decidable (complete s) :=
  Nat.decidableBallLT s.len fun i _ => (s.ops i).stage = Stage.done

/-- Inductive invariant of the cancellation discipline. -/
structure RenderInv (s : SysSt) : Prop where
  hlen : s.nextStart ≤ s.len
  hidle : ∀ i, ((s.ops i).stage = Stage.idle ↔ s.nextStart ≤ i)
  hmnt : ∀ i, ((s.ops i).mounted = true ↔ i + 1 = s.nextStart)
  hset : ∀ i, (s.ops i).settled = true → (s.ops i).stage = Stage.done
  hcan : ∀ i, (s.ops i).cancelled = true →
    (s.ops i).stage = Stage.waitTask ∨ (s.ops i).stage = Stage.done
  hinsref : ∀ i, inflight s i → s.ref = some i
  hrefst : ∀ j, s.ref = some j →
    (s.ops j).stage = Stage.waitTask ∨ (s.ops j).stage = Stage.done
  hinfm : ∀ i, inflight s i → (s.ops i).mounted = true
  hdone : ∀ i, (s.ops i).stage = Stage.done →
    (s.ops i).settled = true ∨ (s.ops i).mounted = false
  hcanm : ∀ i, (s.ops i).cancelled = true → (s.ops i).mounted = false
  hsurf : ∀ j, j + 1 = s.nextStart → (s.ops j).settled = true →
    (s.ops j).cancelled = false → s.surface = some j

/-- A concrete interleaving used as a witness: two requests, the second
issued while the first's raster is still in flight. -/
def exTrace : List Ev :=
  [Ev.start 0, Ev.pageReady 0, Ev.start 1, Ev.pageReady 1, Ev.settle 0, Ev.settle 1]

/-- A concrete `getPageIndex` environment: reference `0` resolves to page
index `3`, reference `1` rejects, an out-of-range element access rejects. -/
def exGpi : Option ℕ → Except String ℤ
  | some 0 => Except.ok 3
  | some 1 => Except.error "bad ref"
  | _ => Except.error "undefined ref"

/-! ## Theorems -/

/-- C1: for strictly positive page and container sizes, the fit scale is
`min(Wc/Wp, Hc/Hp)` and the layout size fits the box, touching it on at
least one axis. -/
theorem fitScale_contain (pageW pageH cw ch : ℚ)
    (hpw : 0 < pageW) (hph : 0 < pageH) (hcw : 0 < cw) (hch : 0 < ch) :
    fitScale pageW pageH cw ch = min (cw / pageW) (ch / pageH) ∧
    layoutWidth pageW pageH cw ch ≤ cw ∧
    layoutHeight pageW pageH cw ch ≤ ch ∧
    (layoutWidth pageW pageH cw ch = cw ∨ layoutHeight pageW pageH cw ch = ch) := by
  have hpw0 : pageW ≠ 0 := ne_of_gt hpw
  have hph0 : pageH ≠ 0 := ne_of_gt hph
  have hW : pageW * (cw / pageW) = cw := by
    rw [mul_comm]; exact div_mul_cancel₀ cw hpw0
  have hH : pageH * (ch / pageH) = ch := by
    rw [mul_comm]; exact div_mul_cancel₀ ch hph0
  refine ⟨rfl, ?_, ?_, ?_⟩ <;>
    simp only [layoutWidth, layoutHeight, fitScale, widthScale, heightScale]
  · rcases le_total (cw / pageW) (ch / pageH) with h | h
    · rw [min_eq_left h, hW]
    · rw [min_eq_right h]
      calc pageW * (ch / pageH) ≤ pageW * (cw / pageW) :=
            mul_le_mul_of_nonneg_left h (le_of_lt hpw)
        _ = cw := hW
  · rcases le_total (cw / pageW) (ch / pageH) with h | h
    · rw [min_eq_left h]
      calc pageH * (cw / pageW) ≤ pageH * (ch / pageH) :=
            mul_le_mul_of_nonneg_left h (le_of_lt hph)
        _ = ch := hH
    · rw [min_eq_right h, hH]
  · rcases le_total (cw / pageW) (ch / pageH) with h | h
    · exact Or.inl (by rw [min_eq_left h, hW])
    · exact Or.inr (by rw [min_eq_right h, hH])

/-- Witness for `fitScale_contain` at the spec's own example
`Wp=600, Hp=800, Wc=400, Hc=400`. -/
theorem fitScale_contain_witness :
    ((0:ℚ) < 600 ∧ (0:ℚ) < 800 ∧ (0:ℚ) < 400) ∧
    (fitScale 600 800 400 400 = min (400 / 600) (400 / 800) ∧
     layoutWidth 600 800 400 400 ≤ 400 ∧
     layoutHeight 600 800 400 400 ≤ 400 ∧
     (layoutWidth 600 800 400 400 = 400 ∨ layoutHeight 600 800 400 400 = 400)) :=
  ⟨⟨by norm_num, by norm_num, by norm_num⟩,
   fitScale_contain 600 800 400 400 (by norm_num) (by norm_num) (by norm_num) (by norm_num)⟩

/-- C2: canvas, text overlay and annotation overlay all occupy the same
on-screen box: size `layoutWidth ×ₗ layoutHeight` at position
`(offsetX, offsetY)`; in particular the overlays coincide exactly with
the raster surface. -/
theorem layersCoincide (pageW pageH cw ch : ℚ) :
    canvasRect pageW pageH cw ch =
      ⟨offsetX pageW pageH cw ch, offsetY pageW pageH cw ch,
       layoutWidth pageW pageH cw ch, layoutHeight pageW pageH cw ch⟩ ∧
    textLayerRect pageW pageH cw ch = canvasRect pageW pageH cw ch ∧
    annotLayerRect pageW pageH cw ch = canvasRect pageW pageH cw ch :=
  ⟨rfl, rfl, rfl⟩

/-- C4 (counterexample): in the `src/unnamed/part_000` variant a
text-layer failure does prevent the annotation layer from being
rendered — with the same successful raster and annotation outcomes, the
annotation layer renders when the text layer succeeds and does not when
the text layer fails. -/
theorem renderNoTextGuard_counterexample :
    (renderAttemptNoTextGuard (Except.ok () : Except String Unit)
      (Except.error "text layer failed") (Except.ok ())).annotRendered = false ∧
    (renderAttemptNoTextGuard (Except.ok () : Except String Unit)
      (Except.ok ()) (Except.ok ())).annotRendered = true ∧
    (renderAttemptNoTextGuard (Except.ok () : Except String Unit)
      (Except.error "text layer failed") (Except.ok ())).fatal =
      some "text layer failed" := by
  refine ⟨rfl, rfl, rfl⟩

/-- C4 (amended): in the `src/components/PDFPage.tsx` variant the text
and annotation overlays fail independently — the annotation outcome does
not depend on the text outcome and vice versa — a raster failure aborts
the whole attempt (neither overlay is rendered and the error is fatal),
and a successful raster is never fatal; in the `src/unnamed/part_000`
variant (no inner guards) a raster failure aborts everything and a
text-layer failure additionally aborts the annotation layer, while an
annotation-layer failure still cannot affect the already-rendered text
layer. -/
theorem renderLayersIndependent (ε : Type) (r t t' a a' : Except ε Unit) (e : ε) :
    (renderAttempt r t a).annotRendered = (renderAttempt r t' a).annotRendered ∧
    (renderAttempt r t a).textRendered = (renderAttempt r t a').textRendered ∧
    renderAttempt (Except.error e) t a = ⟨false, false, false, some e⟩ ∧
    (renderAttempt (Except.ok ()) t a).fatal = none ∧
    renderAttemptNoTextGuard (Except.error e) t a = ⟨false, false, false, some e⟩ ∧
    renderAttemptNoTextGuard (Except.ok ()) (Except.error e) a =
      ⟨true, false, false, some e⟩ ∧
    renderAttemptNoTextGuard (Except.ok ()) (Except.ok ()) (Except.error e) =
      ⟨true, true, false, some e⟩ ∧
    (renderAttemptNoTextGuard (Except.ok ()) (Except.ok ()) a).textRendered = true := by
  cases r <;> cases a <;> simp [renderAttempt, renderAttemptNoTextGuard, layerOk]

/-- C8: editing without a new file updates `title`, `description`,
`category` (and the derived `slug`) and leaves `pdfUrl`, `coverImage`,
`pageCount`, `originalFilename` unchanged; those four fields take the
new file's values exactly when a new file is supplied. -/
theorem editUpdates_frame (norm : Char → List Char) (m : Magazine)
    (t d c pv : String) (f : NewFileData) :
    (updateMagazine m (editUpdates norm t d c none pv)).pdfUrl = m.pdfUrl ∧
    (updateMagazine m (editUpdates norm t d c none pv)).coverImage = m.coverImage ∧
    (updateMagazine m (editUpdates norm t d c none pv)).pageCount = m.pageCount ∧
    (updateMagazine m (editUpdates norm t d c none pv)).originalFilename =
      m.originalFilename ∧
    (updateMagazine m (editUpdates norm t d c none pv)).title = t ∧
    (updateMagazine m (editUpdates norm t d c none pv)).description = d ∧
    (updateMagazine m (editUpdates norm t d c none pv)).category = c ∧
    (updateMagazine m (editUpdates norm t d c (some f) pv)).pdfUrl = f.objectUrl ∧
    (updateMagazine m (editUpdates norm t d c (some f) pv)).coverImage = pv ∧
    (updateMagazine m (editUpdates norm t d c (some f) pv)).pageCount = f.numPages ∧
    (updateMagazine m (editUpdates norm t d c (some f) pv)).originalFilename = f.name :=
  ⟨rfl, rfl, rfl, rfl, rfl, rfl, rfl, rfl, rfl, rfl, rfl⟩

/-- C7 (counterexample): the fallback of `analyzePdf` does not have an
empty description, and the failure-branch category is `Uncategorized`,
not `General`. -/
theorem analyzePdf_fallback_counterexample :
    analyzePdf none "doc.pdf" (Except.error "x") ≠ ⟨"doc", "", "General"⟩ ∧
    (analyzePdf none "doc.pdf" (Except.error "x")).title = "doc" ∧
    (analyzePdf none "doc.pdf" (Except.error "x")).description ≠ "" ∧
    (analyzePdf (some "key") "doc.pdf" (Except.error "x")).category = "Uncategorized" := by
  refine ⟨by decide, by decide, by decide, by decide⟩

/-- C7 (amended): when the API key is absent or empty, `analyzePdf`
returns the deterministic key-missing fallback (title = filename with
the first `.pdf` removed, a fixed placeholder description, category
`General`); when the key is present but the AI call fails it returns the
error fallback (same title, fixed placeholder description, category
`Uncategorized`); and when the call succeeds it returns the parsed
result — an error never escapes. -/
theorem analyzePdf_fallback (apiKey : Option String) (name : String)
    (res : Except String AIAnalysisResult) :
    (jsFalsyStr apiKey = true → analyzePdf apiKey name res = mockFallback name) ∧
    (jsFalsyStr apiKey = false → ∀ e, res = Except.error e →
      analyzePdf apiKey name res = errorFallback name) ∧
    (jsFalsyStr apiKey = false → ∀ r, res = Except.ok r →
      analyzePdf apiKey name res = r) ∧
    (mockFallback name).title = jsReplaceFirst name ".pdf" ∧
    (errorFallback name).title = jsReplaceFirst name ".pdf" := by
  refine ⟨fun h => by simp [analyzePdf, h], fun h e he => ?_, fun h r hr => ?_, rfl, rfl⟩
  · subst he; simp [analyzePdf, h]
  · subst hr; simp [analyzePdf, h]

/-- Witness for `analyzePdf_fallback` at a missing key and at a failing
call with a present key. -/
theorem analyzePdf_fallback_witness :
    (jsFalsyStr none = true ∧
     analyzePdf none "doc.pdf" (Except.error "x") = mockFallback "doc.pdf") ∧
    (jsFalsyStr (some "key") = false ∧
     analyzePdf (some "key") "doc.pdf" (Except.error "x") = errorFallback "doc.pdf") :=
  ⟨⟨by decide, (analyzePdf_fallback none "doc.pdf" (Except.error "x")).1 (by decide)⟩,
   ⟨by decide,
    (analyzePdf_fallback (some "key") "doc.pdf" (Except.error "x")).2.1 (by decide) "x" rfl⟩⟩

/-- C5: a capture-phase click on an annotation element resolving to an
external (`http`/`mailto:`) anchor stops propagation, prevents default
and opens the target exactly once via
`window.open(href, '_blank', 'noopener,noreferrer')`; a click resolving
to an internal anchor opens nothing (while still stopping propagation). -/
theorem externalLinkClick (h : String) (rest : List (Option String)) :
    (isExternalHref h = true →
      dispatchClickCapture (some h :: rest) =
        ⟨true, true, [⟨h, "_blank", "noopener,noreferrer"⟩]⟩ ∧
      (dispatchClickCapture (some h :: rest)).opened.length = 1) ∧
    (isExternalHref h = false →
      (dispatchClickCapture (some h :: rest)).opened = [] ∧
      (dispatchClickCapture (some h :: rest)).propagationStopped = true ∧
      (dispatchClickCapture (some h :: rest)).defaultPrevented = false) := by
  constructor
  · intro hext
    have hne : ¬ h = "" := by
      intro he; subst he; exact absurd hext (by decide)
    constructor
    · simp [dispatchClickCapture, handleLinkClick, hne, hext]
    · simp [dispatchClickCapture, handleLinkClick, hne, hext]
  · intro hnext
    by_cases he : h = "" <;>
      simp [dispatchClickCapture, handleLinkClick, he, hnext]

/-- Witness for `externalLinkClick` at an external and an internal href. -/
theorem externalLinkClick_witness :
    (isExternalHref "https://example.com" = true ∧
     dispatchClickCapture [some "https://example.com"] =
       ⟨true, true, [⟨"https://example.com", "_blank", "noopener,noreferrer"⟩]⟩) ∧
    (isExternalHref "#page=3" = false ∧
     (dispatchClickCapture [some "#page=3"]).opened = []) :=
  ⟨⟨by decide, ((externalLinkClick "https://example.com" []).1 (by decide)).1⟩,
   ⟨by decide, ((externalLinkClick "#page=3" []).2 (by decide)).1⟩⟩

/-- C6 (counterexample): a named string destination — a legitimate,
resolvable kind of internal destination in pdf.js — is silently ignored
by `goToDestination`: the page-jump callback is not invoked and nothing
is logged either (the string branch of the resolver is an empty stub),
so such a destination is neither "mapped and jumped" nor "caught and
logged". -/
theorem goToDestination_str_counterexample :
    (goToDestination true exGpi (Dest.str "chapter2")).jumped = none ∧
    (goToDestination true exGpi (Dest.str "chapter2")).warned = false := by
  refine ⟨rfl, rfl⟩

/-- C6 (amended): an explicit (array) internal destination whose first
element `getPageIndex` resolves to an index other than `-1` invokes the
page-jump callback with exactly that zero-based index; a failing
resolution is caught — logged only, no jump, no escaping exception; a
named string destination is not resolved at all — the resolver silently
ignores it (no jump, no log, no exception) — and a missing callback
likewise produces no jump and no exception. -/
theorem goToDestination_resolves (ρ : Type) (gpi : Option ρ → Except String ℤ)
    (r : ρ) (es l : List ρ) (i : ℤ) (e : String) (s : String) (d : Dest ρ) :
    (gpi (some r) = Except.ok i → i ≠ -1 →
      goToDestination true gpi (Dest.arr (r :: es)) = ⟨some i, false⟩) ∧
    (gpi l.head? = Except.error e →
      goToDestination true gpi (Dest.arr l) = ⟨none, true⟩) ∧
    goToDestination true gpi (Dest.str s) = ⟨none, false⟩ ∧
    goToDestination false gpi d = ⟨none, false⟩ := by
  refine ⟨fun hok hne => ?_, fun herr => ?_, rfl, ?_⟩
  · simp [goToDestination, goToDestinationBody, hok, hne]
  · simp [goToDestination, goToDestinationBody, herr]
  · cases d <;> rfl

/-- Witness for `goToDestination_resolves` in the environment `exGpi`. -/
theorem goToDestination_resolves_witness :
    (exGpi (some 0) = Except.ok 3 ∧
     goToDestination true exGpi (Dest.arr [0]) = ⟨some 3, false⟩) ∧
    (exGpi (some 1) = Except.error "bad ref" ∧
     goToDestination true exGpi (Dest.arr [1]) = ⟨none, true⟩) ∧
    goToDestination true exGpi (Dest.str "chapter2") = ⟨none, false⟩ :=
  ⟨⟨rfl, (goToDestination_resolves ℕ exGpi 0 [] [1] 3 "bad ref" "chapter2"
      (Dest.other : Dest ℕ)).1 rfl (by decide)⟩,
   ⟨rfl, (goToDestination_resolves ℕ exGpi 0 [] [1] 3 "bad ref" "chapter2"
      (Dest.other : Dest ℕ)).2.1 rfl⟩,
   (goToDestination_resolves ℕ exGpi 0 [] [1] 3 "bad ref" "chapter2"
      (Dest.other : Dest ℕ)).2.2.1⟩

/-- C10 (counterexample): on desktop (`isMobile = false`) with a single
page (`totalPages = 1`, `p = 1`), `goToNext` returns `2`, which exceeds
`totalPages`. -/
theorem goToNext_range_counterexample :
    goToNext false 1 1 = 2 ∧ ¬ goToNext false 1 1 ≤ 1 := by
  constructor
  · rfl
  · decide

/-- C10 (amended): for `1 ≤ p ≤ totalPages`, `goToPrev` always yields a
result in `[1, p]`, and `goToNext` yields a result in `[p, totalPages]`
in mobile mode and, on desktop, whenever `totalPages ≥ 2`; on desktop
with `totalPages = 1` (hence `p = 1`) `goToNext` returns `2 > totalPages`. -/
theorem pageNav_range (isMobile : Bool) (totalPages p : ℤ)
    (h1 : 1 ≤ p) (h2 : p ≤ totalPages) :
    (1 ≤ goToPrev isMobile totalPages p ∧ goToPrev isMobile totalPages p ≤ p) ∧
    p ≤ goToNext isMobile totalPages p ∧
    (isMobile = true → goToNext isMobile totalPages p ≤ totalPages) ∧
    (2 ≤ totalPages → goToNext isMobile totalPages p ≤ totalPages) ∧
    (isMobile = false → totalPages = 1 → goToNext isMobile totalPages p = 2) := by
  have hp2 : jsMod p 2 = p % 2 := Int.tmod_eq_emod (by omega) (by norm_num)
  cases isMobile with
  | true =>
    refine ⟨?_, ?_, fun _ => ?_, fun _ => ?_, fun h => Bool.noConfusion h⟩ <;>
      · simp only [goToPrev, goToNext]
        split_ifs <;> first | omega | simp_all
  | false =>
    refine ⟨?_, ?_, fun h => Bool.noConfusion h, fun ht => ?_, fun _ ht1 => ?_⟩ <;>
      · simp only [goToPrev, goToNext]
        rw [hp2]
        split_ifs <;> first | omega | simp_all

/-- Every character emitted by the non-alphanumeric squash is in
`[a-z0-9]` or is a hyphen. -/
theorem squashAux_mem (b : Bool) (s : List Char) :
    ∀ c ∈ squashAux b s, isAlnum c = true ∨ c = '-' := by
  induction s generalizing b with
  | nil => intro c hc; simp [squashAux] at hc
  | cons d ds ih =>
    intro c hc
    cases hd : isAlnum d with
    | true =>
      simp only [squashAux, hd] at hc
      simp only [if_true, List.mem_cons] at hc
      rcases hc with rfl | hc
      · exact Or.inl hd
      · exact ih false c hc
    | false =>
      cases b with
      | true =>
        simp [squashAux, hd] at hc
        exact ih true c hc
      | false =>
        simp [squashAux, hd] at hc
        rcases hc with rfl | hc
        · exact Or.inr rfl
        · exact ih true c hc

/-- The squash in run-state `true` starts with an alphanumeric character
(the pending run's hyphen was already emitted). -/
theorem squashAux_true_head (s : List Char) :
    ∀ c, (squashAux true s).head? = some c → isAlnum c = true := by
  induction s with
  | nil => intro c hc; simp [squashAux] at hc
  | cons d ds ih =>
    intro c hc
    cases hd : isAlnum d with
    | true =>
      simp [squashAux, hd] at hc
      exact hc ▸ hd
    | false =>
      simp [squashAux, hd] at hc
      exact ih c hc

/-- The squash output never has two adjacent non-alphanumeric characters. -/
theorem squashAux_chain (b : Bool) (s : List Char) :
    (squashAux b s).Chain' (fun a b => isAlnum a = true ∨ isAlnum b = true) := by
  induction s generalizing b with
  | nil => simp [squashAux]
  | cons d ds ih =>
    cases hd : isAlnum d with
    | true =>
      have e0 : squashAux b (d :: ds) = d :: squashAux false ds := by
        simp [squashAux, hd]
      rw [e0, List.chain'_cons']
      exact ⟨fun y _ => Or.inl hd, ih false⟩
    | false =>
      cases b with
      | true =>
        have e0 : squashAux true (d :: ds) = squashAux true ds := by
          simp [squashAux, hd]
        rw [e0]
        exact ih true
      | false =>
        have e0 : squashAux false (d :: ds) = '-' :: squashAux true ds := by
          simp [squashAux, hd]
        rw [e0, List.chain'_cons']
        refine ⟨fun y hy => Or.inr (squashAux_true_head ds y ?_), ih true⟩
        exact Option.mem_def.mp hy

/-- A prefix of a `Chain'` is a `Chain'`. -/
theorem chain'_of_prefixOf {α : Type} {R : α → α → Prop} {l₁ l₂ : List α}
    (h : l₁ <+: l₂) (hc : l₂.Chain' R) : l₁.Chain' R := by
  obtain ⟨t, rfl⟩ := h
  exact hc.left_of_append

/-- A suffix of a `Chain'` is a `Chain'`. -/
theorem chain'_of_suffix {α : Type} {R : α → α → Prop} {l₁ l₂ : List α}
    (h : l₁ <:+ l₂) (hc : l₂.Chain' R) : l₁.Chain' R := by
  obtain ⟨t, rfl⟩ := h
  exact hc.right_of_append

/-- The head of a nonempty prefix is the head of the whole list. -/
theorem head?_of_prefixOf {α : Type} {l₁ l₂ : List α} (h : l₁ <+: l₂) {c : α}
    (hc : l₁.head? = some c) : l₂.head? = some c := by
  obtain ⟨t, rfl⟩ := h
  cases l₁ with
  | nil => simp at hc
  | cons d ds => simpa using hc

/-- The head of `dropWhile p` does not satisfy `p`. -/
theorem head?_dropWhile_neg {α : Type} (p : α → Bool) (l : List α) :
    ∀ c, (l.dropWhile p).head? = some c → p c = false := by
  induction l with
  | nil => intro c hc; simp at hc
  | cons d ds ih =>
    intro c hc
    by_cases hd : p d = true
    · rw [List.dropWhile_cons, if_pos hd] at hc
      exact ih c hc
    · rw [List.dropWhile_cons, if_neg hd] at hc
      simp only [List.head?_cons, Option.some.injEq] at hc
      subst hc
      exact Bool.not_eq_true _ ▸ hd

/-- Fact: `dropTrailing p l` is a prefix of `l`. -/
theorem dropTrailing_prefixOf (p : Char → Bool) (l : List Char) :
    dropTrailing p l <+: l := by
  have h : l.reverse.dropWhile p <:+ l.reverse := List.dropWhile_suffix p
  have h2 := Iff.mpr List.reverse_prefix h
  rwa [List.reverse_reverse] at h2

/-- The last element of `dropTrailing p l` does not satisfy `p`. -/
theorem getLast?_dropTrailing_neg (p : Char → Bool) (l : List Char) :
    ∀ c, (dropTrailing p l).getLast? = some c → p c = false := by
  intro c hc
  unfold dropTrailing at hc
  rw [List.getLast?_reverse] at hc
  exact head?_dropWhile_neg p l.reverse c hc

/-- The head of `trimHyphens` is not a hyphen. -/
theorem head?_trimHyphens_neg (l : List Char) :
    ∀ c, (trimHyphens l).head? = some c → isHyphen c = false := by
  intro c hc
  have hpre : trimHyphens l <+: l.dropWhile isHyphen := dropTrailing_prefixOf _ _
  exact head?_dropWhile_neg isHyphen l c (head?_of_prefixOf hpre hc)

/-- The last element of `trimHyphens` is not a hyphen. -/
theorem getLast?_trimHyphens_neg (l : List Char) :
    ∀ c, (trimHyphens l).getLast? = some c → isHyphen c = false :=
  fun c hc => getLast?_dropTrailing_neg isHyphen (l.dropWhile isHyphen) c hc

/-- Fact: `trimHyphens` preserves `Chain'`. -/
theorem chain'_trimHyphens {R : Char → Char → Prop} {l : List Char}
    (h : l.Chain' R) : (trimHyphens l).Chain' R :=
  chain'_of_prefixOf (dropTrailing_prefixOf _ _)
    (chain'_of_suffix (List.dropWhile_suffix _) h)

/-- Members of `trimHyphens l` are members of `l`. -/
theorem mem_trimHyphens {l : List Char} {c : Char} (h : c ∈ trimHyphens l) :
    c ∈ l := by
  have h1 : trimHyphens l <+: l.dropWhile isHyphen := dropTrailing_prefixOf _ _
  exact (List.dropWhile_suffix isHyphen).sublist.subset (h1.sublist.subset h)

/-- After the squash, no two adjacent characters are both hyphens. -/
theorem trimSquash_chain (l : List Char) :
    (trimHyphens (squashNonAlnum l)).Chain' (fun a b => ¬(a = '-' ∧ b = '-')) := by
  refine chain'_trimHyphens (List.Chain'.imp ?_ (squashAux_chain false l))
  rintro a b hab ⟨rfl, rfl⟩
  rcases hab with h | h <;> exact absurd h (by decide)

/-- On a list with no two adjacent hyphens, the hyphen collapse is the
identity. -/
theorem collapseAux_false_id (l : List Char)
    (h : l.Chain' (fun a b => ¬(a = '-' ∧ b = '-'))) : collapseAux false l = l := by
  induction l with
  | nil => rfl
  | cons c cs ih =>
    rw [List.chain'_cons'] at h
    obtain ⟨hR, hcs⟩ := h
    by_cases hc : isHyphen c = true
    · have hc' : c = '-' := by simpa [isHyphen] using hc
      subst hc'
      cases cs with
      | nil => rfl
      | cons d ds =>
        have hd : ¬ d = '-' := fun hdd => hR d rfl ⟨rfl, hdd⟩
        have hdh : isHyphen d = false := by simp [isHyphen, hd]
        have step2 : collapseAux false (d :: ds) = d :: collapseAux false ds := by
          simp [collapseAux, hdh]
        have step3 : collapseAux false ds = ds := by
          have h4 := ih hcs
          rw [step2] at h4
          simpa using h4
        show collapseAux false ('-' :: d :: ds) = '-' :: d :: ds
        simp [collapseAux, hdh, step3]
    · simp [collapseAux, hc, ih hcs]

/-- On a list of slug characters with no two adjacent hyphens, the
non-alphanumeric squash is the identity. -/
theorem squashAux_false_id (l : List Char)
    (hmem : ∀ c ∈ l, isAlnum c = true ∨ c = '-')
    (h : l.Chain' (fun a b => ¬(a = '-' ∧ b = '-'))) : squashAux false l = l := by
  induction l with
  | nil => rfl
  | cons c cs ih =>
    rw [List.chain'_cons'] at h
    obtain ⟨hR, hcs⟩ := h
    have hmcs : ∀ x ∈ cs, isAlnum x = true ∨ x = '-' :=
      fun x hx => hmem x (List.mem_cons_of_mem _ hx)
    by_cases hc : isAlnum c = true
    · simp [squashAux, hc, ih hmcs hcs]
    · have hc' : c = '-' := by
        rcases hmem c (by simp) with h | h
        · exact absurd h hc
        · exact h
      subst hc'
      cases cs with
      | nil => rfl
      | cons d ds =>
        have hd : ¬ d = '-' := fun hdd => hR d rfl ⟨rfl, hdd⟩
        have hda : isAlnum d = true := by
          rcases hmcs d (by simp) with h | h
          · exact h
          · exact absurd h hd
        have step2 : squashAux false (d :: ds) = d :: squashAux false ds := by
          simp [squashAux, hda]
        have step3 : squashAux false ds = ds := by
          have h4 := ih hmcs hcs
          rw [step2] at h4
          simpa using h4
        show squashAux false ('-' :: d :: ds) = '-' :: d :: ds
        simp [squashAux, hc, hda, step3]

/-- On a list of slug characters, the normalisation pass is the identity
(provided `norm` is the identity there, as JavaScript lowercasing and NFD
are on lowercase ASCII and hyphens). -/
theorem normChars_id (norm : Char → List Char)
    (hnorm : ∀ c, (isAlnum c = true ∨ c = '-') → norm c = [c])
    (l : List Char) (hmem : ∀ c ∈ l, isAlnum c = true ∨ c = '-') :
    normChars norm l = l := by
  induction l with
  | nil => rfl
  | cons c cs ih =>
    have h1 : norm c = [c] := hnorm c (hmem c (by simp))
    have h2 := ih fun x hx => hmem x (List.mem_cons_of_mem _ hx)
    simp only [normChars, List.map_cons, List.flatten_cons, h1] at h2 ⊢
    simp [h2]

/-- If the head does not satisfy `p`, `dropWhile p` is the identity. -/
theorem dropWhile_id_of_head {α : Type} (p : α → Bool) (l : List α)
    (h : ∀ c, l.head? = some c → p c = false) : l.dropWhile p = l := by
  cases l with
  | nil => rfl
  | cons d ds => simp [List.dropWhile_cons, h d rfl]

/-- If the last element does not satisfy `p`, `dropTrailing p` is the
identity. -/
theorem dropTrailing_id_of_getLast (p : Char → Bool) (l : List Char)
    (h : ∀ c, l.getLast? = some c → p c = false) : dropTrailing p l = l := by
  unfold dropTrailing
  rw [dropWhile_id_of_head p l.reverse
    (fun c hc => h c (by rwa [List.head?_reverse] at hc)), List.reverse_reverse]

/-- On a list with no leading and no trailing hyphen, `trimHyphens` is
the identity. -/
theorem trimHyphens_id (l : List Char)
    (hh : ∀ c, l.head? = some c → isHyphen c = false)
    (hl : ∀ c, l.getLast? = some c → isHyphen c = false) : trimHyphens l = l := by
  unfold trimHyphens
  rw [dropWhile_id_of_head _ _ hh, dropTrailing_id_of_getLast _ _ hl]

/-- The final hyphen collapse of `createSlug` is a no-op: after the
squash there are no adjacent hyphens to collapse. -/
theorem createSlug_eq_trim (norm : Char → List Char) (s : List Char) :
    createSlug norm s = trimHyphens (squashNonAlnum (normChars norm s)) := by
  unfold createSlug collapseHyphens
  exact collapseAux_false_id _ (trimSquash_chain _)

/-- Adjacent elements of a `Chain'` are related. -/
theorem chain'_pair {α : Type} {R : α → α → Prop} (l : List α) :
    l.Chain' R → ∀ i a b, l[i]? = some a → l[i + 1]? = some b → R a b := by
  induction l with
  | nil => intro _ i a b ha _; simp at ha
  | cons c cs ih =>
    intro hl i a b ha hb
    cases i with
    | zero =>
      have hac : c = a := by simpa using ha
      subst hac
      cases cs with
      | nil => simp at hb
      | cons d ds =>
        have hbd : d = b := by simpa using hb
        subst hbd
        exact (List.chain'_cons.mp hl).1
    | succ n =>
      have hl' : cs.Chain' R := (List.chain'_cons'.mp hl).2
      exact ih hl' n a b (by simpa using ha) (by simpa using hb)

/-- C9: every slug consists only of lowercase ASCII letters, digits and
hyphens, never starts or ends with a hyphen, never contains two adjacent
hyphens, and `createSlug` is idempotent — given that the normalisation
pass is the identity on slug characters, as JavaScript lowercasing and
NFD normalisation are. -/
theorem createSlug_wellFormed (norm : Char → List Char) (s : List Char)
    (hnorm : ∀ c, (isAlnum c = true ∨ c = '-') → norm c = [c]) :
    (∀ c ∈ createSlug norm s, isAlnum c = true ∨ c = '-') ∧
    (∀ c, (createSlug norm s).head? = some c → c ≠ '-') ∧
    (∀ c, (createSlug norm s).getLast? = some c → c ≠ '-') ∧
    (∀ i a b, (createSlug norm s)[i]? = some a →
      (createSlug norm s)[i + 1]? = some b → ¬(a = '-' ∧ b = '-')) ∧
    createSlug norm (createSlug norm s) = createSlug norm s := by
  have heq := createSlug_eq_trim norm s
  have hmem : ∀ c ∈ createSlug norm s, isAlnum c = true ∨ c = '-' := by
    rw [heq]
    intro c hc
    exact squashAux_mem false _ c (mem_trimHyphens hc)
  have hheadH : ∀ c, (createSlug norm s).head? = some c → isHyphen c = false := by
    rw [heq]; exact head?_trimHyphens_neg _
  have hlastH : ∀ c, (createSlug norm s).getLast? = some c → isHyphen c = false := by
    rw [heq]; exact getLast?_trimHyphens_neg _
  have hhead : ∀ c, (createSlug norm s).head? = some c → c ≠ '-' := by
    intro c hc hcc
    subst hcc
    have h := hheadH '-' hc
    simp [isHyphen] at h
  have hlast : ∀ c, (createSlug norm s).getLast? = some c → c ≠ '-' := by
    intro c hc hcc
    subst hcc
    have h := hlastH '-' hc
    simp [isHyphen] at h
  have hchain : (createSlug norm s).Chain' (fun a b => ¬(a = '-' ∧ b = '-')) := by
    rw [heq]; exact trimSquash_chain _
  refine ⟨hmem, hhead, hlast, fun i a b ha hb => chain'_pair _ hchain i a b ha hb, ?_⟩
  have h1 : normChars norm (createSlug norm s) = createSlug norm s :=
    normChars_id norm hnorm _ hmem
  have h2 : squashNonAlnum (createSlug norm s) = createSlug norm s :=
    squashAux_false_id _ hmem hchain
  have h3 : trimHyphens (createSlug norm s) = createSlug norm s :=
    trimHyphens_id _ hheadH hlastH
  have h4 : collapseHyphens (createSlug norm s) = createSlug norm s :=
    collapseAux_false_id _ hchain
  show collapseHyphens (trimHyphens (squashNonAlnum (normChars norm (createSlug norm s)))) =
    createSlug norm s
  rw [h1, h2, h3, h4]

/-- Witness for `createSlug_wellFormed` with the identity normalisation
on a concrete mixed input. -/
theorem createSlug_wellFormed_witness :
    (∀ c, (isAlnum c = true ∨ c = '-') → identNorm c = [c]) ∧
    createSlug identNorm "  hola,, mundo!  ".data = "hola-mundo".data ∧
    ((∀ c ∈ createSlug identNorm "  hola,, mundo!  ".data,
        isAlnum c = true ∨ c = '-') ∧
     (∀ c, (createSlug identNorm "  hola,, mundo!  ".data).head? = some c → c ≠ '-') ∧
     (∀ c, (createSlug identNorm "  hola,, mundo!  ".data).getLast? = some c → c ≠ '-') ∧
     (∀ i a b, (createSlug identNorm "  hola,, mundo!  ".data)[i]? = some a →
       (createSlug identNorm "  hola,, mundo!  ".data)[i + 1]? = some b →
       ¬(a = '-' ∧ b = '-')) ∧
     createSlug identNorm (createSlug identNorm "  hola,, mundo!  ".data) =
       createSlug identNorm "  hola,, mundo!  ".data) :=
  ⟨fun _ _ => rfl, by decide,
   createSlug_wellFormed identNorm "  hola,, mundo!  ".data (fun _ _ => rfl)⟩

/-- Witness for `pageNav_range` at `isMobile = false`, `totalPages = 10`,
`p = 2`. -/
theorem pageNav_range_witness :
    ((1:ℤ) ≤ 2 ∧ (2:ℤ) ≤ 10) ∧
    ((1 ≤ goToPrev false 10 2 ∧ goToPrev false 10 2 ≤ 2) ∧
     2 ≤ goToNext false 10 2 ∧
     (false = true → goToNext false 10 2 ≤ 10) ∧
     ((2:ℤ) ≤ 10 → goToNext false 10 2 ≤ 10) ∧
     (false = false → (10:ℤ) = 1 → goToNext false 10 2 = 2)) :=
  ⟨⟨by norm_num, by norm_num⟩, pageNav_range false 10 2 (by norm_num) (by norm_num)⟩

/-- Reading an op after `setOp`. -/
theorem setOp_ops (s : SysSt) (i : ℕ) (f : OpSt → OpSt) (j : ℕ) :
    (setOp s i f).ops j = if j = i then f (s.ops i) else s.ops j := by
  simp [setOp, Function.update_apply]

/-- Lemma: `cancelRef` only changes the ref'd op's `cancelled` flag. -/
theorem cancelRef_ops (s : SysSt) (j : ℕ) :
    (cancelRef s).ops j =
      if s.ref = some j then { s.ops j with cancelled := true } else s.ops j := by
  cases hr : s.ref with
  | none => simp [cancelRef, hr]
  | some k =>
    simp only [cancelRef, hr, setOp_ops]
    by_cases hjk : j = k
    · subst hjk; simp
    · have hne : ¬ (some k = some j) := by simpa using Ne.symm hjk
      simp [hjk, hne]

/-- Fact: `cancelRef` does not change `ref`. -/
theorem cancelRef_ref (s : SysSt) : (cancelRef s).ref = s.ref := by
  cases hr : s.ref <;> simp [cancelRef, hr, setOp]

/-- Fact: `cancelRef` does not change `nextStart`. -/
theorem cancelRef_nextStart (s : SysSt) : (cancelRef s).nextStart = s.nextStart := by
  cases hr : s.ref <;> simp [cancelRef, hr, setOp]

/-- Fact: `cancelRef` does not change `surface`. -/
theorem cancelRef_surface (s : SysSt) : (cancelRef s).surface = s.surface := by
  cases hr : s.ref <;> simp [cancelRef, hr, setOp]

/-- Fact: `cancelRef` does not change `len`. -/
theorem cancelRef_len (s : SysSt) : (cancelRef s).len = s.len := by
  cases hr : s.ref <;> simp [cancelRef, hr, setOp]

/-- Projections of `setOp`. -/
theorem setOp_ref (s : SysSt) (i : ℕ) (f : OpSt → OpSt) : (setOp s i f).ref = s.ref := rfl

/-- Projections of `setOp`. -/
theorem setOp_nextStart (s : SysSt) (i : ℕ) (f : OpSt → OpSt) :
    (setOp s i f).nextStart = s.nextStart := rfl

/-- Projections of `setOp`. -/
theorem setOp_surface (s : SysSt) (i : ℕ) (f : OpSt → OpSt) :
    (setOp s i f).surface = s.surface := rfl

/-- Projections of `setOp`. -/
theorem setOp_len (s : SysSt) (i : ℕ) (f : OpSt → OpSt) : (setOp s i f).len = s.len := rfl

/-- The invariant survives a `start` event. -/
theorem renderInv_start {s s' : SysSt} {i : ℕ} (hI : RenderInv s)
    (h : step s (Ev.start i) = some s') : RenderInv s' := by
  obtain ⟨hlen, hidle, hmnt, hset, hcan, hinsref, hrefst, hinfm, hdone, hcanm, hsurf⟩ := hI
  simp only [step] at h
  by_cases hcond : i = s.nextStart ∧ i < s.len
  swap
  · rw [if_neg hcond] at h; exact absurd h (by simp)
  rw [if_pos hcond] at h
  obtain ⟨hi, hilen⟩ := hcond
  have hidlei : (s.ops i).stage = Stage.idle := (hidle i).mpr (le_of_eq hi.symm)
  have hrefi : ¬ s.ref = some i := by
    intro hr
    rcases hrefst i hr with h1 | h1 <;> rw [hidlei] at h1 <;> exact absurd h1 (by decide)
  by_cases hi0 : i = 0
  · -- first effect: no predecessor cleanup; everything is still idle
    subst hi0
    rw [if_pos rfl] at h
    have hs := Option.some.inj h
    have hops : ∀ j, s'.ops j =
        if j = 0 then { s.ops 0 with mounted := true, stage := Stage.waitPage }
        else s.ops j := by
      intro j; rw [← hs]; simp [setOp_ops]
    have hns : s'.nextStart = 1 := by rw [← hs]
    have href' : s'.ref = s.ref := by rw [← hs]; exact rfl
    have hsurf' : s'.surface = s.surface := by rw [← hs]; exact rfl
    have hlen' : s'.len = s.len := by rw [← hs]; exact rfl
    have hns0 : s.nextStart = 0 := hi.symm
    have hnomnt : ∀ j, (s.ops j).mounted = false := by
      intro j
      cases hmj : (s.ops j).mounted
      · rfl
      · exfalso; have := (hmnt j).mp hmj; omega
    have hallidle : ∀ j, (s.ops j).stage = Stage.idle := by
      intro j; exact (hidle j).mpr (by omega)
    have hnoinf : ∀ j, ¬ inflight s' j := by
      intro j hinf
      obtain ⟨h1, _⟩ := hinf
      rw [hops j] at h1
      by_cases hj : j = 0
      · subst hj; rw [if_pos rfl] at h1; simp at h1
      · rw [if_neg hj, hallidle j] at h1; exact absurd h1 (by decide)
    refine ⟨?_, ?_, ?_, ?_, ?_, ?_, ?_, ?_, ?_, ?_, ?_⟩
    · rw [hns, hlen']; omega
    · intro j
      rw [hops j, hns]
      by_cases hj : j = 0
      · subst hj; simp
      · rw [if_neg hj, hallidle j]; simp; omega
    · intro j
      rw [hops j, hns]
      by_cases hj : j = 0
      · subst hj; simp
      · rw [if_neg hj, hnomnt j]; simp; omega
    · intro j
      rw [hops j]
      by_cases hj : j = 0
      · subst hj; rw [if_pos rfl]
        intro hsj; exfalso
        have h2 := hset 0 (by simpa using hsj)
        rw [hallidle 0] at h2; exact absurd h2 (by decide)
      · rw [if_neg hj]; exact hset j
    · intro j
      rw [hops j]
      by_cases hj : j = 0
      · subst hj; rw [if_pos rfl]
        intro hcj; exfalso
        have h2 := hcan 0 (by simpa using hcj)
        rw [hallidle 0] at h2
        rcases h2 with h2 | h2 <;> exact absurd h2 (by decide)
      · rw [if_neg hj]; exact hcan j
    · intro j hinf; exact absurd hinf (hnoinf j)
    · intro j hj
      exfalso
      rw [href'] at hj
      rcases hrefst j hj with h1 | h1 <;> rw [hallidle j] at h1 <;>
        exact absurd h1 (by decide)
    · intro j hinf; exact absurd hinf (hnoinf j)
    · intro j hd
      rw [hops j] at hd ⊢
      by_cases hj : j = 0
      · subst hj; rw [if_pos rfl] at hd; simp at hd
      · rw [if_neg hj] at hd ⊢; exact hdone j hd
    · intro j hcj
      rw [hops j] at hcj ⊢
      by_cases hj : j = 0
      · subst hj; rw [if_pos rfl] at hcj
        exfalso
        have h2 := hcan 0 (by simpa using hcj)
        rw [hallidle 0] at h2
        rcases h2 with h2 | h2 <;> exact absurd h2 (by decide)
      · rw [if_neg hj] at hcj ⊢; exact hcanm j hcj
    · intro j hj1 hsj hcj
      rw [hns] at hj1
      have hj0 : j = 0 := by omega
      subst hj0
      rw [hops 0, if_pos rfl] at hsj
      exfalso
      have h2 := hset 0 (by simpa using hsj)
      rw [hallidle 0] at h2; exact absurd h2 (by decide)
  · -- a later effect: the predecessor is unmounted and the ref'd task cancelled
    rw [if_neg hi0] at h
    have hs := Option.some.inj h
    have hii : ¬ i = i - 1 := by omega
    have hopsi : s'.ops i = { s.ops i with mounted := true, stage := Stage.waitPage } := by
      rw [← hs]
      simp [setOp_ops, cancelRef_ops, setOp_ref, hrefi, hii]
    have hopspred : s'.ops (i - 1) =
        if s.ref = some (i - 1) then
          { s.ops (i - 1) with mounted := false, cancelled := true }
        else { s.ops (i - 1) with mounted := false } := by
      rw [← hs]
      have hpi : ¬ (i - 1 = i) := by omega
      simp [setOp_ops, cancelRef_ops, setOp_ref, hpi]
    have hopsj : ∀ j, ¬ j = i → ¬ j = i - 1 → s'.ops j =
        if s.ref = some j then { s.ops j with cancelled := true } else s.ops j := by
      intro j hj hjp
      rw [← hs]
      simp [setOp_ops, cancelRef_ops, setOp_ref, hj, hjp]
    have hns : s'.nextStart = i + 1 := by rw [← hs]
    have href' : s'.ref = s.ref := by rw [← hs]; simp [setOp, cancelRef_ref]
    have hsurf' : s'.surface = s.surface := by rw [← hs]; simp [setOp, cancelRef_surface]
    have hlen' : s'.len = s.len := by rw [← hs]; simp [setOp, cancelRef_len]
    have hnoinf : ∀ j, ¬ inflight s' j := by
      intro j hinf
      obtain ⟨h1, h2⟩ := hinf
      by_cases hj : j = i
      · rw [hj] at h1; rw [hopsi] at h1; simp at h1
      · by_cases hjp : j = i - 1
        · subst hjp
          by_cases hr : s.ref = some (i - 1)
          · rw [hopspred, if_pos hr] at h2
            simp at h2
          · rw [hopspred, if_neg hr] at h1 h2
            exact hr (hinsref (i - 1) ⟨by simpa using h1, by simpa using h2⟩)
        · by_cases hr : s.ref = some j
          · rw [hopsj j hj hjp, if_pos hr] at h2
            simp at h2
          · rw [hopsj j hj hjp, if_neg hr] at h1 h2
            exact hr (hinsref j ⟨h1, h2⟩)
    refine ⟨?_, ?_, ?_, ?_, ?_, ?_, ?_, ?_, ?_, ?_, ?_⟩
    · rw [hns, hlen']; omega
    · intro j
      rw [hns]
      by_cases hj : j = i
      · rw [hj, hopsi]; simp
      · by_cases hjp : j = i - 1
        · subst hjp
          have hnotidle : ¬ (s.ops (i - 1)).stage = Stage.idle := by
            intro h1; have := (hidle (i - 1)).mp h1; omega
          rw [hopspred]
          split_ifs with hr <;> simp [hnotidle] <;> omega
        · rw [hopsj j hj hjp]
          split_ifs with hr
          · have hnid : ¬ (s.ops j).stage = Stage.idle := by
              rcases hrefst j hr with h2 | h2 <;> rw [h2] <;> decide
            have hlt : ¬ s.nextStart ≤ j := fun hle => hnid ((hidle j).mpr hle)
            simp [hnid]; omega
          · rw [hidle j]; omega
    · intro j
      rw [hns]
      by_cases hj : j = i
      · rw [hj, hopsi]; simp
      · by_cases hjp : j = i - 1
        · subst hjp; rw [hopspred]
          split_ifs with hr <;> simp <;> omega
        · have hmf : (s.ops j).mounted = false := by
            cases hmj : (s.ops j).mounted
            · rfl
            · exfalso; have := (hmnt j).mp hmj; omega
          rw [hopsj j hj hjp]
          split_ifs with hr <;> simp [hmf] <;> omega
    · intro j
      by_cases hj : j = i
      · rw [hj, hopsi]
        intro hsj; exfalso
        have h2 := hset i (by simpa using hsj)
        rw [hidlei] at h2; exact absurd h2 (by decide)
      · by_cases hjp : j = i - 1
        · subst hjp; rw [hopspred]
          split_ifs with hr <;> intro hsj <;>
            simpa using hset (i - 1) (by simpa using hsj)
        · rw [hopsj j hj hjp]
          split_ifs with hr <;> intro hsj <;>
            simpa using hset j (by simpa using hsj)
    · intro j
      by_cases hj : j = i
      · rw [hj, hopsi]
        intro hcj; exfalso
        have h2 := hcan i (by simpa using hcj)
        rw [hidlei] at h2
        rcases h2 with h2 | h2 <;> exact absurd h2 (by decide)
      · by_cases hjp : j = i - 1
        · subst hjp; rw [hopspred]
          split_ifs with hr
          · intro _; simpa using hrefst (i - 1) hr
          · intro hcj; simpa using hcan (i - 1) (by simpa using hcj)
        · rw [hopsj j hj hjp]
          split_ifs with hr
          · intro _; simpa using hrefst j hr
          · intro hcj; simpa using hcan j (by simpa using hcj)
    · intro j hinf; exact absurd hinf (hnoinf j)
    · intro j hj
      rw [href'] at hj
      by_cases hji : j = i
      · rw [hji] at hj; exact absurd hj hrefi
      · by_cases hjp : j = i - 1
        · subst hjp; rw [hopspred, if_pos hj]
          simpa using hrefst (i - 1) hj
        · rw [hopsj j hji hjp, if_pos hj]
          simpa using hrefst j hj
    · intro j hinf; exact absurd hinf (hnoinf j)
    · intro j hd
      by_cases hj : j = i
      · rw [hj] at hd; rw [hopsi] at hd; simp at hd
      · by_cases hjp : j = i - 1
        · subst hjp; rw [hopspred] at hd ⊢
          split_ifs at hd ⊢ with hr <;> simp
        · rw [hopsj j hj hjp] at hd ⊢
          split_ifs at hd ⊢ with hr
          · simpa using hdone j (by simpa using hd)
          · exact hdone j hd
    · intro j hcj
      by_cases hj : j = i
      · rw [hj] at hcj; rw [hopsi] at hcj
        exfalso
        have h2 := hcan i (by simpa using hcj)
        rw [hidlei] at h2
        rcases h2 with h2 | h2 <;> exact absurd h2 (by decide)
      · by_cases hjp : j = i - 1
        · subst hjp; rw [hopspred] at hcj ⊢
          split_ifs at hcj ⊢ with hr <;> simp
        · have hmf : (s.ops j).mounted = false := by
            cases hmj : (s.ops j).mounted
            · rfl
            · exfalso; have := (hmnt j).mp hmj; omega
          rw [hopsj j hj hjp] at hcj ⊢
          split_ifs at hcj ⊢ with hr
          · simpa using hmf
          · exact hmf
    · intro j hj1 hsj hcj
      rw [hns] at hj1
      have hj : j = i := by omega
      rw [hj] at hsj
      rw [hopsi] at hsj
      exfalso
      have h2 := hset i (by simpa using hsj)
      rw [hidlei] at h2; exact absurd h2 (by decide)

/-- The invariant survives a `pageReady` event. -/
theorem renderInv_pageReady {s s' : SysSt} {i : ℕ} (hI : RenderInv s)
    (h : step s (Ev.pageReady i) = some s') : RenderInv s' := by
  obtain ⟨hlen, hidle, hmnt, hset, hcan, hinsref, hrefst, hinfm, hdone, hcanm, hsurf⟩ := hI
  simp only [step] at h
  by_cases hst : (s.ops i).stage = Stage.waitPage
  swap
  · rw [if_neg hst] at h; exact absurd h (by simp)
  rw [if_pos hst] at h
  have hnidle : ¬ s.nextStart ≤ i := by
    intro hle
    have h2 := (hidle i).mpr hle
    rw [hst] at h2; exact absurd h2 (by decide)
  have hrefi : ¬ s.ref = some i := by
    intro hr
    rcases hrefst i hr with h1 | h1 <;> rw [hst] at h1 <;> exact absurd h1 (by decide)
  by_cases hm : (s.ops i).mounted = true
  · -- still mounted: cancel the ref'd task and start our own
    rw [if_pos hm] at h
    have hs := Option.some.inj h
    have hopsi : s'.ops i = { s.ops i with stage := Stage.waitTask } := by
      rw [← hs]; simp [setOp_ops, cancelRef_ops, hrefi]
    have hopsj : ∀ j, ¬ j = i → s'.ops j =
        if s.ref = some j then { s.ops j with cancelled := true } else s.ops j := by
      intro j hj; rw [← hs]; simp [setOp_ops, cancelRef_ops, hj]
    have hns : s'.nextStart = s.nextStart := by rw [← hs]; exact cancelRef_nextStart s
    have href' : s'.ref = some i := by rw [← hs]
    have hsurf' : s'.surface = s.surface := by rw [← hs]; exact cancelRef_surface s
    have hlen' : s'.len = s.len := by rw [← hs]; exact cancelRef_len s
    have hnsi : i + 1 = s.nextStart := (hmnt i).mp hm
    refine ⟨?_, ?_, ?_, ?_, ?_, ?_, ?_, ?_, ?_, ?_, ?_⟩
    · rw [hns, hlen']; exact hlen
    · intro j
      rw [hns]
      by_cases hj : j = i
      · rw [hj, hopsi]; simp [hnidle]
      · rw [hopsj j hj]
        split_ifs with hr
        · simpa using hidle j
        · exact hidle j
    · intro j
      rw [hns]
      by_cases hj : j = i
      · rw [hj, hopsi]; simpa using hmnt i
      · rw [hopsj j hj]
        split_ifs with hr
        · simpa using hmnt j
        · exact hmnt j
    · intro j
      by_cases hj : j = i
      · rw [hj, hopsi]
        intro hsj; exfalso
        have h2 := hset i (by simpa using hsj)
        rw [hst] at h2; exact absurd h2 (by decide)
      · rw [hopsj j hj]
        split_ifs with hr
        · intro hsj; simpa using hset j (by simpa using hsj)
        · exact hset j
    · intro j
      by_cases hj : j = i
      · rw [hj, hopsi]; intro _; exact Or.inl rfl
      · rw [hopsj j hj]
        split_ifs with hr
        · intro _; simpa using hrefst j hr
        · exact hcan j
    · intro j hinf
      obtain ⟨h1, h2⟩ := hinf
      by_cases hj : j = i
      · rw [hj]; exact href'
      · exfalso
        by_cases hr : s.ref = some j
        · rw [hopsj j hj, if_pos hr] at h2; simp at h2
        · rw [hopsj j hj, if_neg hr] at h1 h2
          exact hr (hinsref j ⟨h1, h2⟩)
    · intro j hj2
      rw [href'] at hj2
      have hji : j = i := (Option.some.inj hj2).symm
      rw [hji, hopsi]
      exact Or.inl rfl
    · intro j hinf
      obtain ⟨h1, h2⟩ := hinf
      by_cases hj : j = i
      · rw [hj, hopsi]; simpa using hm
      · exfalso
        by_cases hr : s.ref = some j
        · rw [hopsj j hj, if_pos hr] at h2; simp at h2
        · rw [hopsj j hj, if_neg hr] at h1 h2
          exact hr (hinsref j ⟨h1, h2⟩)
    · intro j hd
      by_cases hj : j = i
      · rw [hj] at hd; rw [hopsi] at hd; simp at hd
      · rw [hopsj j hj] at hd ⊢
        split_ifs at hd ⊢ with hr
        · simpa using hdone j (by simpa using hd)
        · exact hdone j hd
    · intro j hcj
      by_cases hj : j = i
      · rw [hj] at hcj; rw [hopsi] at hcj
        exfalso
        have h2 := hcan i (by simpa using hcj)
        rw [hst] at h2
        rcases h2 with h2 | h2 <;> exact absurd h2 (by decide)
      · by_cases hr : s.ref = some j
        · rw [hopsj j hj, if_pos hr]
          have hmf : (s.ops j).mounted = false := by
            cases hmj : (s.ops j).mounted
            · rfl
            · exfalso; have := (hmnt j).mp hmj; omega
          simpa using hmf
        · rw [hopsj j hj, if_neg hr] at hcj ⊢
          exact hcanm j hcj
    · intro j hj1 hsj hcj
      rw [hns] at hj1
      have hji : j = i := by omega
      rw [hji] at hsj; rw [hopsi] at hsj
      exfalso
      have h2 := hset i (by simpa using hsj)
      rw [hst] at h2; exact absurd h2 (by decide)
  · -- unmounted: the closure returns without starting a task
    rw [if_neg hm] at h
    have hs := Option.some.inj h
    have hmf : (s.ops i).mounted = false := by
      cases hmm2 : (s.ops i).mounted
      · rfl
      · exact absurd hmm2 hm
    have hops : ∀ j, s'.ops j =
        if j = i then { s.ops i with stage := Stage.done } else s.ops j := by
      intro j; rw [← hs]; simp [setOp_ops]
    have hns : s'.nextStart = s.nextStart := by rw [← hs]; exact rfl
    have href' : s'.ref = s.ref := by rw [← hs]; exact rfl
    have hsurf' : s'.surface = s.surface := by rw [← hs]; exact rfl
    have hlen' : s'.len = s.len := by rw [← hs]; exact rfl
    refine ⟨?_, ?_, ?_, ?_, ?_, ?_, ?_, ?_, ?_, ?_, ?_⟩
    · rw [hns, hlen']; exact hlen
    · intro j
      rw [hops j, hns]
      split_ifs with hj
      · rw [hj]; simp [hnidle]
      · exact hidle j
    · intro j
      rw [hops j, hns]
      split_ifs with hj
      · rw [hj]; simpa using hmnt i
      · exact hmnt j
    · intro j
      rw [hops j]
      split_ifs with hj
      · intro _; rfl
      · exact hset j
    · intro j
      rw [hops j]
      split_ifs with hj
      · intro _; exact Or.inr rfl
      · exact hcan j
    · intro j hinf
      obtain ⟨h1, h2⟩ := hinf
      by_cases hj : j = i
      · rw [hops j, if_pos hj] at h1; simp at h1
      · rw [hops j, if_neg hj] at h1 h2
        rw [href']
        exact hinsref j ⟨h1, h2⟩
    · intro j hj2
      rw [href'] at hj2
      by_cases hj : j = i
      · rw [hj] at hj2; exact absurd hj2 hrefi
      · rw [hops j, if_neg hj]; exact hrefst j hj2
    · intro j hinf
      obtain ⟨h1, h2⟩ := hinf
      by_cases hj : j = i
      · rw [hops j, if_pos hj] at h1; simp at h1
      · rw [hops j, if_neg hj] at h1 h2
        rw [hops j, if_neg hj]
        exact hinfm j ⟨h1, h2⟩
    · intro j hd
      by_cases hj : j = i
      · rw [hops j, if_pos hj]
        right
        simpa using hmf
      · rw [hops j, if_neg hj] at hd ⊢
        exact hdone j hd
    · intro j hcj
      by_cases hj : j = i
      · rw [hops j, if_pos hj] at hcj ⊢
        simpa using hmf
      · rw [hops j, if_neg hj] at hcj ⊢
        exact hcanm j hcj
    · intro j hj1 hsj hcj
      rw [hns] at hj1
      by_cases hj : j = i
      · exfalso
        have h2 := (hmnt j).mpr hj1
        rw [hj] at h2
        rw [hmf] at h2
        exact Bool.noConfusion h2
      · rw [hops j, if_neg hj] at hsj hcj
        rw [hsurf']
        exact hsurf j hj1 hsj hcj

/-- The invariant survives a `settle` event. -/
theorem renderInv_settle {s s' : SysSt} {i : ℕ} (hI : RenderInv s)
    (h : step s (Ev.settle i) = some s') : RenderInv s' := by
  obtain ⟨hlen, hidle, hmnt, hset, hcan, hinsref, hrefst, hinfm, hdone, hcanm, hsurf⟩ := hI
  simp only [step] at h
  by_cases hst : (s.ops i).stage = Stage.waitTask
  swap
  · rw [if_neg hst] at h; exact absurd h (by simp)
  rw [if_pos hst] at h
  have hnidle : ¬ s.nextStart ≤ i := by
    intro hle
    have h2 := (hidle i).mpr hle
    rw [hst] at h2; exact absurd h2 (by decide)
  by_cases hcc : (s.ops i).cancelled = true
  · -- a cancelled task settles: no raster is committed
    rw [if_pos hcc] at h
    have hs := Option.some.inj h
    have hops : ∀ j, s'.ops j =
        if j = i then { s.ops i with settled := true, stage := Stage.done }
        else s.ops j := by
      intro j; rw [← hs]; simp [setOp_ops]
    have hns : s'.nextStart = s.nextStart := by rw [← hs]; exact rfl
    have href' : s'.ref = s.ref := by rw [← hs]; exact rfl
    have hsurf' : s'.surface = s.surface := by rw [← hs]; exact rfl
    have hlen' : s'.len = s.len := by rw [← hs]; exact rfl
    have hcm : (s.ops i).mounted = false := hcanm i hcc
    refine ⟨?_, ?_, ?_, ?_, ?_, ?_, ?_, ?_, ?_, ?_, ?_⟩
    · rw [hns, hlen']; exact hlen
    · intro j
      rw [hops j, hns]
      split_ifs with hj
      · rw [hj]; simp [hnidle]
      · exact hidle j
    · intro j
      rw [hops j, hns]
      split_ifs with hj
      · rw [hj]; simpa using hmnt i
      · exact hmnt j
    · intro j
      rw [hops j]
      split_ifs with hj
      · intro _; rfl
      · exact hset j
    · intro j
      rw [hops j]
      split_ifs with hj
      · intro _; exact Or.inr rfl
      · exact hcan j
    · intro j hinf
      obtain ⟨h1, h2⟩ := hinf
      by_cases hj : j = i
      · rw [hops j, if_pos hj] at h1; simp at h1
      · rw [hops j, if_neg hj] at h1 h2
        rw [href']
        exact hinsref j ⟨h1, h2⟩
    · intro j hj2
      rw [href'] at hj2
      by_cases hj : j = i
      · rw [hops j, if_pos hj]; exact Or.inr rfl
      · rw [hops j, if_neg hj]; exact hrefst j hj2
    · intro j hinf
      obtain ⟨h1, h2⟩ := hinf
      by_cases hj : j = i
      · rw [hops j, if_pos hj] at h1; simp at h1
      · rw [hops j, if_neg hj] at h1 h2
        rw [hops j, if_neg hj]
        exact hinfm j ⟨h1, h2⟩
    · intro j hd
      by_cases hj : j = i
      · rw [hops j, if_pos hj]
        exact Or.inl rfl
      · rw [hops j, if_neg hj] at hd ⊢
        exact hdone j hd
    · intro j hcj
      by_cases hj : j = i
      · rw [hops j, if_pos hj]
        simpa using hcm
      · rw [hops j, if_neg hj] at hcj ⊢
        exact hcanm j hcj
    · intro j hj1 hsj hcj
      rw [hns] at hj1
      by_cases hj : j = i
      · rw [hops j, if_pos hj] at hcj
        exfalso
        have h2 : (s.ops i).cancelled = false := by simpa using hcj
        rw [hcc] at h2
        exact Bool.noConfusion h2
      · rw [hops j, if_neg hj] at hsj hcj
        rw [hsurf']
        exact hsurf j hj1 hsj hcj
  · -- an uncancelled task settles: its raster is committed to the surface
    rw [if_neg hcc] at h
    have hs := Option.some.inj h
    have hccf : (s.ops i).cancelled = false := by
      cases h2 : (s.ops i).cancelled
      · rfl
      · exact absurd h2 hcc
    have hops : ∀ j, s'.ops j =
        if j = i then { s.ops i with settled := true, stage := Stage.done }
        else s.ops j := by
      intro j; rw [← hs]; simp [setOp_ops]
    have hns : s'.nextStart = s.nextStart := by rw [← hs]; exact rfl
    have href' : s'.ref = s.ref := by rw [← hs]; exact rfl
    have hsurf' : s'.surface = some i := by rw [← hs]
    have hlen' : s'.len = s.len := by rw [← hs]; exact rfl
    have hmi : (s.ops i).mounted = true := hinfm i ⟨hst, hccf⟩
    have hnsi : i + 1 = s.nextStart := (hmnt i).mp hmi
    refine ⟨?_, ?_, ?_, ?_, ?_, ?_, ?_, ?_, ?_, ?_, ?_⟩
    · rw [hns, hlen']; exact hlen
    · intro j
      rw [hops j, hns]
      split_ifs with hj
      · rw [hj]; simp [hnidle]
      · exact hidle j
    · intro j
      rw [hops j, hns]
      split_ifs with hj
      · rw [hj]; simpa using hmnt i
      · exact hmnt j
    · intro j
      rw [hops j]
      split_ifs with hj
      · intro _; rfl
      · exact hset j
    · intro j
      rw [hops j]
      split_ifs with hj
      · intro _; exact Or.inr rfl
      · exact hcan j
    · intro j hinf
      obtain ⟨h1, h2⟩ := hinf
      by_cases hj : j = i
      · rw [hops j, if_pos hj] at h1; simp at h1
      · rw [hops j, if_neg hj] at h1 h2
        rw [href']
        exact hinsref j ⟨h1, h2⟩
    · intro j hj2
      rw [href'] at hj2
      by_cases hj : j = i
      · rw [hops j, if_pos hj]; exact Or.inr rfl
      · rw [hops j, if_neg hj]; exact hrefst j hj2
    · intro j hinf
      obtain ⟨h1, h2⟩ := hinf
      by_cases hj : j = i
      · rw [hops j, if_pos hj] at h1; simp at h1
      · rw [hops j, if_neg hj] at h1 h2
        rw [hops j, if_neg hj]
        exact hinfm j ⟨h1, h2⟩
    · intro j hd
      by_cases hj : j = i
      · rw [hops j, if_pos hj]
        exact Or.inl rfl
      · rw [hops j, if_neg hj] at hd ⊢
        exact hdone j hd
    · intro j hcj
      by_cases hj : j = i
      · rw [hops j, if_pos hj] at hcj
        exfalso
        have h2 : (s.ops i).cancelled = true := by simpa using hcj
        rw [hccf] at h2
        exact Bool.noConfusion h2
      · rw [hops j, if_neg hj] at hcj ⊢
        exact hcanm j hcj
    · intro j hj1 hsj hcj
      rw [hns] at hj1
      have hj : j = i := by omega
      rw [hj, hsurf']

/-- The invariant survives every enabled event. -/
theorem renderInv_step {s s' : SysSt} {e : Ev} (hI : RenderInv s)
    (h : step s e = some s') : RenderInv s' := by
  cases e with
  | start i => exact renderInv_start hI h
  | pageReady i => exact renderInv_pageReady hI h
  | settle i => exact renderInv_settle hI h

/-- The initial state satisfies the invariant. -/
theorem renderInv_init (n : ℕ) : RenderInv (initSt n) := by
  refine ⟨Nat.zero_le n, fun i => ?_, fun i => ?_, fun i h => ?_, fun i h => ?_,
    fun i h => ?_, fun j h => ?_, fun i h => ?_, fun i h => ?_, fun i h => ?_,
    fun j h1 h2 h3 => ?_⟩
  · simp [initSt, initOp]
  · simp [initSt, initOp]
  · exact absurd h (by simp [initSt, initOp])
  · exact absurd h (by simp [initSt, initOp])
  · obtain ⟨h1, _⟩ := h; exact absurd h1 (by simp [initSt, initOp])
  · exact absurd h (by simp [initSt])
  · obtain ⟨h1, _⟩ := h; exact absurd h1 (by simp [initSt, initOp])
  · exact absurd h (by simp [initSt, initOp])
  · exact absurd h (by simp [initSt, initOp])
  · exact absurd h1 (by simp [initSt])

/-- Running a trace preserves the invariant. -/
theorem run_inv {tr : List Ev} {s s' : SysSt} (hI : RenderInv s)
    (h : run s tr = some s') : RenderInv s' := by
  induction tr generalizing s with
  | nil =>
    simp only [run, Option.some.injEq] at h
    exact h ▸ hI
  | cons e es ih =>
    simp only [run] at h
    cases hst : step s e with
    | none => rw [hst] at h; simp at h
    | some s1 =>
      rw [hst] at h
      exact ih (renderInv_step hI hst) h

/-- A step does not change the number of requests. -/
theorem step_len {s s' : SysSt} {e : Ev} (h : step s e = some s') : s'.len = s.len := by
  cases e with
  | start i =>
    simp only [step] at h
    by_cases hc : i = s.nextStart ∧ i < s.len
    · rw [if_pos hc] at h
      rw [← Option.some.inj h]
      by_cases hi0 : i = 0
      · rw [if_pos hi0]; rfl
      · rw [if_neg hi0]
        exact cancelRef_len _
    · rw [if_neg hc] at h; exact absurd h (by simp)
  | pageReady i =>
    simp only [step] at h
    by_cases h1 : (s.ops i).stage = Stage.waitPage
    · rw [if_pos h1] at h
      by_cases h2 : (s.ops i).mounted = true
      · rw [if_pos h2] at h
        rw [← Option.some.inj h]
        exact cancelRef_len s
      · rw [if_neg h2] at h
        rw [← Option.some.inj h]; rfl
    · rw [if_neg h1] at h; exact absurd h (by simp)
  | settle i =>
    simp only [step] at h
    by_cases h1 : (s.ops i).stage = Stage.waitTask
    · rw [if_pos h1] at h
      by_cases h2 : (s.ops i).cancelled = true
      · rw [if_pos h2] at h
        rw [← Option.some.inj h]; rfl
      · rw [if_neg h2] at h
        rw [← Option.some.inj h]; rfl
    · rw [if_neg h1] at h; exact absurd h (by simp)

/-- Running a trace does not change the number of requests. -/
theorem run_len {tr : List Ev} {s s' : SysSt} (h : run s tr = some s') :
    s'.len = s.len := by
  induction tr generalizing s with
  | nil =>
    simp only [run, Option.some.injEq] at h
    rw [← h]
  | cons e es ih =>
    simp only [run] at h
    cases hst : step s e with
    | none => rw [hst] at h; simp at h
    | some s1 =>
      rw [hst] at h
      rw [ih h, step_len hst]

/-- Running an appended trace is running the pieces in sequence. -/
theorem run_append (s : SysSt) (p q : List Ev) :
    run s (p ++ q) = (run s p).bind (fun s1 => run s1 q) := by
  induction p generalizing s with
  | nil => simp [run]
  | cons e es ih =>
    simp only [List.cons_append, run]
    cases hst : step s e with
    | none => simp
    | some s1 => simp [ih s1]

/-- C3: with the cancel-before-restart discipline of `PDFPage`, after any
complete interleaving of `N ≥ 1` render requests the surface holds
exactly the last request's raster; moreover along the whole trace at most
one raster task is ever in flight, and a request that is superseded
(unmounted) while its raster is unsettled is necessarily cancelled, so
its completion commits nothing. -/
theorem renderCancellationDiscipline (N : ℕ) (tr : List Ev) (s : SysSt)
    (hN : 1 ≤ N) (hrun : run (initSt N) tr = some s) (hc : complete s) :
    s.surface = some (N - 1) ∧
    (∀ p q s1, tr = p ++ q → run (initSt N) p = some s1 →
      (∀ j k, inflight s1 j → inflight s1 k → j = k) ∧
      (∀ j, (s1.ops j).stage = Stage.waitTask → (s1.ops j).mounted = false →
        (s1.ops j).cancelled = true)) := by
  have hinv := run_inv (renderInv_init N) hrun
  have hlen : s.len = N := run_len hrun
  have hns : s.nextStart = N := by
    have h1 : (s.ops (N - 1)).stage = Stage.done := hc (N - 1) (by omega)
    have h2 : ¬ s.nextStart ≤ N - 1 := by
      intro hle
      have h3 := (hinv.hidle (N - 1)).mpr hle
      rw [h1] at h3; exact absurd h3 (by decide)
    have h4 := hinv.hlen
    omega
  have hm : (s.ops (N - 1)).mounted = true := (hinv.hmnt (N - 1)).mpr (by omega)
  have hd : (s.ops (N - 1)).stage = Stage.done := hc (N - 1) (by omega)
  have hsettled : (s.ops (N - 1)).settled = true := by
    rcases hinv.hdone (N - 1) hd with h1 | h1
    · exact h1
    · rw [hm] at h1; exact Bool.noConfusion h1
  have hnc : (s.ops (N - 1)).cancelled = false := by
    cases h1 : (s.ops (N - 1)).cancelled
    · rfl
    · have h2 := hinv.hcanm (N - 1) h1
      rw [hm] at h2; exact Bool.noConfusion h2
  refine ⟨hinv.hsurf (N - 1) (by omega) hsettled hnc, ?_⟩
  intro p q s1 hpq hp
  have hinv1 := run_inv (renderInv_init N) hp
  refine ⟨fun j k hj hk => ?_, fun j h1 h2 => ?_⟩
  · have e1 := hinv1.hinsref j hj
    have e2 := hinv1.hinsref k hk
    rw [e1] at e2
    exact Option.some.inj e2
  · cases h3 : (s1.ops j).cancelled
    · exfalso
      have h4 := hinv1.hinfm j ⟨h1, h3⟩
      rw [h2] at h4
      exact Bool.noConfusion h4
    · rfl

/-- Witness for `renderCancellationDiscipline`: two requests, the second
issued mid-flight; the first settles cancelled, the second commits. -/
theorem renderCancellationDiscipline_witness :
    (1 ≤ 2 ∧ run (initSt 2) exTrace = some ((run (initSt 2) exTrace).getD (initSt 2)) ∧
     complete ((run (initSt 2) exTrace).getD (initSt 2))) ∧
    ((run (initSt 2) exTrace).getD (initSt 2)).surface = some 1 :=
  ⟨⟨by norm_num, rfl, by decide⟩,
   (renderCancellationDiscipline 2 exTrace ((run (initSt 2) exTrace).getD (initSt 2))
     (by norm_num) rfl (by decide)).1⟩
